import Mathlib

/-
Verification of the chunked-recording core of the note-gen repository.

The Python source is shallowly embedded:

* `app/recording/audio_utils.py::compute_chunk_boundaries` — the `while`
  loop is given a step-indexed (fuel) semantics `chunkLoopFuel`; a fuel of
  `total_samples + 1` is shown sufficient whenever `samples_per_chunk ≥ 1`,
  and `compute_chunk_boundaries` is the function run with that fuel.

* `app/recording/worker.py` — the worker's chunk bookkeeping.  Audio
  samples are abstracted to their counts (no verified property depends on
  sample values): the shared buffer is the list of appended block lengths,
  a snapshot's length is their sum.  Transcription and the SQLite insert
  are oracles that may raise (`Except`); Python exceptions are `.error`.
  `WorkerState.ranges` is the trace of `(start, end)` sample ranges the
  worker handed to `_process_single_chunk`, and `WorkerState.fired` logs,
  per processed chunk, the notified metadata together with each registered
  callback's outcome (the source discards these outcomes: `except: pass`).

* `app/routes/recording.py::start_recording / stop_recording` — the
  per-session status bookkeeping of the two routes, with the ordered list
  of session-status writes committed to the database.
-/

namespace NoteGen

/-- Step-indexed semantics of the `while pos + samples_per_chunk <= total_samples`
loop of `compute_chunk_boundaries` (audio_utils.py lines 20-25).  Each loop
iteration consumes one unit of fuel; `none` means the loop was still running
when the fuel ran out. -/
def chunkLoopFuel (total spc : Nat) : Nat → Nat → Option (List (Nat × Nat))
  | 0, pos =>
      if pos + spc ≤ total then none else some []
  | fuel + 1, pos =>
      if pos + spc ≤ total then
        (chunkLoopFuel total spc fuel (pos + spc)).map (fun bs => (pos, pos + spc) :: bs)
      else some []

/-- `audio_utils.py::compute_chunk_boundaries`: the loop run with fuel
`total_samples + 1`, which is proved sufficient for `samples_per_chunk ≥ 1`. -/
def compute_chunk_boundaries (total_samples last_chunk_end samples_per_chunk : Nat) :
    List (Nat × Nat) :=
  (chunkLoopFuel total_samples samples_per_chunk (total_samples + 1) last_chunk_end).getD []

lemma chunkLoopFuel_eq (total spc : Nat) (hspc : 1 ≤ spc) :
    ∀ fuel pos, (total - pos) / spc ≤ fuel →
      chunkLoopFuel total spc fuel pos =
        some ((List.range ((total - pos) / spc)).map
          (fun i => (pos + i * spc, pos + (i + 1) * spc))) := by
  intro fuel
  induction fuel with
  | zero =>
      intro pos h
      have hdiv : (total - pos) / spc = 0 := Nat.le_zero.mp h
      have hlt : total - pos < spc := by
        have := (Nat.div_eq_zero_iff (Nat.lt_of_lt_of_le Nat.zero_lt_one hspc)).mp hdiv
        exact this
      have hguard : ¬ pos + spc ≤ total := by omega
      simp [chunkLoopFuel, hguard, hdiv]
  | succ fuel ih =>
      intro pos h
      by_cases hguard : pos + spc ≤ total
      · have hstep : (total - pos) / spc = (total - (pos + spc)) / spc + 1 := by
          have hsub : total - pos = (total - (pos + spc)) + spc := by omega
          rw [hsub, Nat.add_div_right _ (Nat.lt_of_lt_of_le Nat.zero_lt_one hspc)]
        have hrec : (total - (pos + spc)) / spc ≤ fuel := by omega
        have hih := ih (pos + spc) hrec
        simp only [chunkLoopFuel, if_pos hguard, hih, Option.map_some']
        refine congrArg some ?_
        rw [hstep, List.range_succ_eq_map, List.map_cons, List.map_map]
        congr 1
        · simp
        · apply List.map_congr_left
          intro i _
          simp only [Function.comp_apply, Prod.mk.injEq, Nat.succ_eq_add_one]
          constructor <;> ring
      · have hlt : total - pos < spc := by omega
        have hdiv : (total - pos) / spc = 0 := Nat.div_eq_of_lt hlt
        simp [chunkLoopFuel, hguard, hdiv]

lemma compute_chunk_boundaries_eq (total last spc : Nat) (hspc : 1 ≤ spc) :
    compute_chunk_boundaries total last spc =
      (List.range ((total - last) / spc)).map
        (fun i => (last + i * spc, last + (i + 1) * spc)) := by
  have hfuel : (total - last) / spc ≤ total + 1 := by
    have h1 : (total - last) / spc ≤ total - last := Nat.div_le_self _ _
    omega
  rw [compute_chunk_boundaries, chunkLoopFuel_eq total spc hspc _ _ hfuel]
  rfl

/-- C1: for `samples_per_chunk ≥ 1`, `compute_chunk_boundaries` returns exactly
the consecutive fixed-size windows starting at `last_chunk_end`, one window per
`i` with `last_chunk_end + (i+1)*samples_per_chunk ≤ total_samples`; it is empty
as soon as one full chunk does not fit, and the two concrete evaluations from
the spec hold. -/
theorem compute_chunk_boundaries_spec (total last spc : Nat) (hspc : 1 ≤ spc) :
    compute_chunk_boundaries total last spc =
      (List.range ((total - last) / spc)).map
        (fun i => (last + i * spc, last + (i + 1) * spc))
    ∧ (∀ i : Nat, last + (i + 1) * spc ≤ total ↔ i < (total - last) / spc)
    ∧ (total < last + spc → compute_chunk_boundaries total last spc = [])
    ∧ compute_chunk_boundaries 96000 0 32000 =
        [(0, 32000), (32000, 64000), (64000, 96000)]
    ∧ compute_chunk_boundaries 50000 0 32000 = [(0, 32000)] := by
  have hspc0 : 0 < spc := Nat.lt_of_lt_of_le Nat.zero_lt_one hspc
  refine ⟨compute_chunk_boundaries_eq total last spc hspc, ?_, ?_, ?_, ?_⟩
  · intro i
    rw [Nat.lt_iff_add_one_le, Nat.le_div_iff_mul_le hspc0]
    have hm : 0 < (i + 1) * spc := Nat.mul_pos (Nat.succ_pos i) hspc0
    generalize (i + 1) * spc = m at hm ⊢
    omega
  · intro hlt
    rw [compute_chunk_boundaries_eq total last spc hspc]
    have hdiv : (total - last) / spc = 0 := Nat.div_eq_of_lt (by omega)
    rw [hdiv]
    rfl
  · rw [compute_chunk_boundaries_eq 96000 0 32000 (by norm_num)]
    norm_num
    rfl
  · rw [compute_chunk_boundaries_eq 50000 0 32000 (by norm_num)]
    norm_num
    rfl

theorem compute_chunk_boundaries_spec_witness :
    1 ≤ 32000 ∧
      (compute_chunk_boundaries 96000 0 32000 =
          (List.range ((96000 - 0) / 32000)).map
            (fun i => (0 + i * 32000, 0 + (i + 1) * 32000))
        ∧ (∀ i : Nat, 0 + (i + 1) * 32000 ≤ 96000 ↔ i < (96000 - 0) / 32000)
        ∧ (96000 < 0 + 32000 → compute_chunk_boundaries 96000 0 32000 = [])
        ∧ compute_chunk_boundaries 96000 0 32000 =
            [(0, 32000), (32000, 64000), (64000, 96000)]
        ∧ compute_chunk_boundaries 50000 0 32000 = [(0, 32000)]) :=
  ⟨by norm_num, compute_chunk_boundaries_spec 96000 0 32000 (by norm_num)⟩

/-- C10: the loop terminates for every input with `samples_per_chunk ≥ 1`
(fuel `total_samples + 1` always suffices), and the precondition is necessary:
for `samples_per_chunk = 0` with `last_chunk_end ≤ total_samples` the loop
position never advances and no amount of fuel makes it terminate. -/
theorem chunk_boundaries_termination :
    (∀ total last spc : Nat, 1 ≤ spc →
        (chunkLoopFuel total spc (total + 1) last).isSome = true)
    ∧ (∀ total last fuel : Nat, last ≤ total →
        chunkLoopFuel total 0 fuel last = none) := by
  constructor
  · intro total last spc hspc
    have hfuel : (total - last) / spc ≤ total + 1 := by
      have h1 : (total - last) / spc ≤ total - last := Nat.div_le_self _ _
      omega
    rw [chunkLoopFuel_eq total spc hspc _ _ hfuel]
    rfl
  · intro total last fuel
    induction fuel with
    | zero =>
        intro h
        have hguard : last + 0 ≤ total := by omega
        simp only [chunkLoopFuel]
        rw [if_pos hguard]
    | succ fuel ih =>
        intro h
        have hguard : last + 0 ≤ total := by omega
        simp only [chunkLoopFuel, if_pos hguard]
        rw [Nat.add_zero, ih h]
        rfl

theorem chunk_boundaries_termination_witness :
    (1 ≤ 32000 ∧ (chunkLoopFuel 96000 32000 96001 0).isSome = true)
    ∧ (0 ≤ 96000 ∧ chunkLoopFuel 96000 0 7 0 = none) :=
  ⟨⟨by norm_num, chunk_boundaries_termination.1 96000 0 32000 (by norm_num)⟩,
   ⟨by norm_num, chunk_boundaries_termination.2 96000 0 7 (by norm_num)⟩⟩

/-- One Whisper segment as returned by `WhisperService.transcribe`
(transcription.py lines 43-51); `start`/`end` offsets are not needed by any
verified property and are omitted from the embedding. -/
structure Segment where
  text : String
  confidence : Rat
deriving DecidableEq

/-- One row of the `transcript_chunks` table as inserted by
`_process_single_chunk` (worker.py lines 190-207). -/
structure ChunkRow where
  session_id : Nat
  chunk_index : Nat
  start_time : Rat
  end_time : Rat
  text : String
  confidence : Rat
deriving DecidableEq

/-- The `chunk_meta` dict handed to each registered callback
(worker.py lines 210-217); it carries the raw segments, not the confidence. -/
structure ChunkMeta where
  session_id : Nat
  chunk_index : Nat
  start_time : Rat
  end_time : Rat
  text : String
  segments : List Segment
deriving DecidableEq

/-- A registered `on_chunk_transcribed` callback; `.error` models a raised
exception. -/
def Callback : Type := ChunkMeta → Except String Unit

/-- The worker's fallible collaborators: `WhisperService.transcribe`, keyed by
the chunk index (the WAV filename is `chunk_{index}.wav`), and the SQLite
insert of one transcript row.  An `.error` models a raised exception. -/
structure Env where
  transcribe : Nat → Except String (List Segment)
  persistRow : ChunkRow → Except String Unit

/-- The worker-thread-owned state of `RecordingWorker`: the chunk bookkeeping
(`_last_chunk_end`, `_chunk_index`, worker.py lines 44-45) plus the observable
logs of a run — committed rows, fired notifications with each callback's
outcome, and the sample ranges handed to `_process_single_chunk`. -/
structure WorkerState where
  last_chunk_end : Nat
  chunk_index : Nat
  rows : List ChunkRow
  fired : List (ChunkMeta × List (Except String Unit))
  ranges : List (Nat × Nat)

/-- Python's 2-decimal `round` on exact rationals. -/
def round2 (q : Rat) : Rat := (round (q * 100) : Int) / 100

/-- First part of `worker.py::_process_single_chunk` (lines 164-207): write the
WAV, transcribe (an exception propagates), compute the two time offsets, join
segment texts with single spaces, average confidences (`0.0` when no
segments), and insert the row (an exception propagates).  Yields the inserted
row together with the `chunk_meta` dict built on lines 210-217. -/
def chunkOutcome (env : Env) (session_id sample_rate : Nat)
    (st : WorkerState) (nsamples : Nat) : Except String (ChunkRow × ChunkMeta) :=
  match env.transcribe st.chunk_index with
  | .error msg => .error msg
  | .ok segments =>
    let chunk_start_time := round2 ((st.last_chunk_end : Rat) / (sample_rate : Rat))
    let chunk_end_time :=
      round2 (((st.last_chunk_end + nsamples : Nat) : Rat) / (sample_rate : Rat))
    let text := String.intercalate " " (segments.map Segment.text)
    let confidence :=
      if segments.isEmpty then 0
      else (segments.map Segment.confidence).sum / (segments.length : Rat)
    let row : ChunkRow :=
      ⟨session_id, st.chunk_index, chunk_start_time, chunk_end_time, text, confidence⟩
    match env.persistRow row with
    | .error msg => .error msg
    | .ok _ =>
      .ok (row, ⟨session_id, st.chunk_index, chunk_start_time, chunk_end_time, text,
                  segments⟩)

/-- `worker.py::_process_single_chunk` (lines 164-222): the persisting part
above, then fire every registered callback with the metadata under
`try/except: pass` — every callback runs, all outcomes are collected, none
propagates.  The caller, not this function, advances `_last_chunk_end` and
`_chunk_index`. -/
def process_single_chunk (env : Env) (callbacks : List Callback)
    (session_id sample_rate : Nat) (st : WorkerState) (nsamples : Nat) :
    Except String WorkerState :=
  match chunkOutcome env session_id sample_rate st nsamples with
  | .error msg => .error msg
  | .ok (row, meta) =>
    .ok { st with
            rows := st.rows ++ [row],
            fired := st.fired ++ [(meta, callbacks.map (fun fn => fn meta))] }

/-- The `for start, end in boundaries` loop of `_maybe_process_chunks`
(worker.py lines 153-158): `break` when a boundary's end exceeds the snapshot
length; otherwise process the slice, and only on success set
`_last_chunk_end := end` and increment `_chunk_index`.  A raised exception
ends the round with the state advanced exactly through the chunks already
completed. -/
def processBoundaries (env : Env) (callbacks : List Callback)
    (session_id sample_rate : Nat) :
    List (Nat × Nat) → Nat → WorkerState → WorkerState × Option String
  | [], _, st => (st, none)
  | (s, e) :: rest, snapshotLen, st =>
    if snapshotLen < e then (st, none)
    else
      match process_single_chunk env callbacks session_id sample_rate st (e - s) with
      | .error msg => (st, some msg)
      | .ok st1 =>
        processBoundaries env callbacks session_id sample_rate rest snapshotLen
          { st1 with
              last_chunk_end := e,
              chunk_index := st1.chunk_index + 1,
              ranges := st1.ranges ++ [(s, e)] }

/-- `worker.py::_maybe_process_chunks` (lines 136-158): read the counter,
compute boundaries, return if none; snapshot the buffer (list of appended
block lengths — the concatenated snapshot's length is their sum), return if
empty; then run the boundary loop. -/
def maybe_process_chunks (env : Env) (callbacks : List Callback)
    (session_id sample_rate samples_per_chunk : Nat)
    (total : Nat) (buffer : List Nat) (st : WorkerState) :
    WorkerState × Option String :=
  if (compute_chunk_boundaries total st.last_chunk_end samples_per_chunk).isEmpty then
    (st, none)
  else if buffer.isEmpty then (st, none)
  else processBoundaries env callbacks session_id sample_rate
        (compute_chunk_boundaries total st.last_chunk_end samples_per_chunk) buffer.sum st

/-- One observation of the shared buffer at a poll: the counter value read
first under the lock, then the snapshot of appended block lengths. -/
structure Poll where
  total : Nat
  buffer : List Nat

/-- `worker.py::_worker_loop` (lines 131-134) over a finite schedule of buffer
observations: run `_maybe_process_chunks` once per poll; the loop body has no
exception handler, so a raised exception terminates the loop immediately. -/
def worker_loop (env : Env) (callbacks : List Callback)
    (session_id sample_rate samples_per_chunk : Nat) :
    List Poll → WorkerState → WorkerState × Option String
  | [], st => (st, none)
  | poll :: rest, st =>
    match maybe_process_chunks env callbacks session_id sample_rate samples_per_chunk
        poll.total poll.buffer st with
    | (st1, none) =>
        worker_loop env callbacks session_id sample_rate samples_per_chunk rest st1
    | (st1, some msg) => (st1, some msg)

/-- `worker.py::_flush_remaining` (lines 228-244): return if the buffer is
empty; otherwise the remainder after `_last_chunk_end` is discarded when
shorter than one second (`sample_rate` samples), else processed as one final
chunk, after which `_last_chunk_end` and `_chunk_index` advance. -/
def flush_remaining (env : Env) (callbacks : List Callback)
    (session_id sample_rate : Nat) (buffer : List Nat) (st : WorkerState) :
    WorkerState × Option String :=
  if buffer.isEmpty then (st, none)
  else if buffer.sum - st.last_chunk_end < sample_rate then (st, none)
  else
    match process_single_chunk env callbacks session_id sample_rate st
        (buffer.sum - st.last_chunk_end) with
    | .error msg => (st, some msg)
    | .ok st1 =>
      ({ st1 with
           last_chunk_end := buffer.sum,
           chunk_index := st1.chunk_index + 1,
           ranges := st1.ranges ++ [(st.last_chunk_end, buffer.sum)] }, none)

/-- Fresh worker state (`RecordingWorker.__init__`, worker.py lines 44-45). -/
def initState : WorkerState := ⟨0, 0, [], [], []⟩

/-- A whole session: start with fresh bookkeeping, run the polling loop, then
`stop()` flushes the remainder (worker.py lines 89-100) from the final buffer.
Returns the final state, the loop's uncaught exception (which dies silently in
the daemon thread), and the flush's uncaught exception. -/
def run_session (env : Env) (callbacks : List Callback)
    (session_id sample_rate samples_per_chunk : Nat)
    (polls : List Poll) (finalBuffer : List Nat) :
    WorkerState × Option String × Option String :=
  let lp := worker_loop env callbacks session_id sample_rate samples_per_chunk polls initState
  let fl := flush_remaining env callbacks session_id sample_rate finalBuffer lp.1
  (fl.1, lp.2, fl.2)

/-- The environment never raises: every transcription succeeds and every row
insert succeeds. -/
def envOk (env : Env) : Prop :=
  (∀ i, ∃ segs, env.transcribe i = .ok segs) ∧ ∀ r, env.persistRow r = .ok ()

lemma process_single_chunk_ok_parts {env : Env} {callbacks : List Callback}
    {session_id sample_rate : Nat} {st st1 : WorkerState} {nsamples : Nat}
    (h : process_single_chunk env callbacks session_id sample_rate st nsamples
          = .ok st1) :
    ∃ row meta, chunkOutcome env session_id sample_rate st nsamples = .ok (row, meta)
      ∧ st1 = { st with
                  rows := st.rows ++ [row],
                  fired := st.fired ++ [(meta, callbacks.map (fun fn => fn meta))] } := by
  unfold process_single_chunk at h
  cases ho : chunkOutcome env session_id sample_rate st nsamples with
  | error msg => rw [ho] at h; exact absurd h (by simp)
  | ok pair =>
    obtain ⟨row, meta⟩ := pair
    rw [ho] at h
    simp only [Except.ok.injEq] at h
    exact ⟨row, meta, rfl, h.symm⟩

lemma chunkOutcome_row_index {env : Env} {session_id sample_rate : Nat}
    {st : WorkerState} {nsamples : Nat} {row : ChunkRow} {meta : ChunkMeta}
    (h : chunkOutcome env session_id sample_rate st nsamples = .ok (row, meta)) :
    row.chunk_index = st.chunk_index ∧ meta.chunk_index = st.chunk_index := by
  unfold chunkOutcome at h
  cases ht : env.transcribe st.chunk_index with
  | error msg => rw [ht] at h; exact absurd h (by simp)
  | ok segs =>
    rw [ht] at h
    simp only at h
    cases hp : env.persistRow _ with
    | error msg => rw [hp] at h; exact absurd h (by simp)
    | ok u =>
      rw [hp] at h
      simp only [Except.ok.injEq, Prod.mk.injEq] at h
      obtain ⟨hrow, hmeta⟩ := h
      constructor
      · rw [← hrow]
      · rw [← hmeta]

lemma process_single_chunk_ok_effects {env : Env} {callbacks : List Callback}
    {session_id sample_rate : Nat} {st st1 : WorkerState} {nsamples : Nat}
    (h : process_single_chunk env callbacks session_id sample_rate st nsamples
          = .ok st1) :
    st1.last_chunk_end = st.last_chunk_end
    ∧ st1.chunk_index = st.chunk_index
    ∧ st1.ranges = st.ranges
    ∧ (∃ row : ChunkRow, row.chunk_index = st.chunk_index ∧ st1.rows = st.rows ++ [row])
    ∧ (∃ meta : ChunkMeta, ∃ results : List (Except String Unit),
        meta.chunk_index = st.chunk_index
        ∧ results = callbacks.map (fun fn => fn meta)
        ∧ st1.fired = st.fired ++ [(meta, results)]) := by
  obtain ⟨row, meta, ho, hst1⟩ := process_single_chunk_ok_parts h
  obtain ⟨hrow, hmeta⟩ := chunkOutcome_row_index ho
  subst hst1
  exact ⟨rfl, rfl, rfl, ⟨row, hrow, rfl⟩, ⟨meta, _, hmeta, rfl, rfl⟩⟩

lemma chunkOutcome_ok_of_envOk {env : Env} (henv : envOk env)
    (session_id sample_rate : Nat) (st : WorkerState) (nsamples : Nat) :
    ∃ out, chunkOutcome env session_id sample_rate st nsamples = .ok out := by
  obtain ⟨segs, hsegs⟩ := henv.1 st.chunk_index
  unfold chunkOutcome
  rw [hsegs]
  simp only
  rw [henv.2 _]
  exact ⟨_, rfl⟩

lemma process_single_chunk_ok_of_envOk {env : Env} (henv : envOk env)
    (callbacks : List Callback) (session_id sample_rate : Nat)
    (st : WorkerState) (nsamples : Nat) :
    ∃ st1, process_single_chunk env callbacks session_id sample_rate st nsamples
            = .ok st1 := by
  obtain ⟨out, hout⟩ := chunkOutcome_ok_of_envOk henv session_id sample_rate st nsamples
  unfold process_single_chunk
  rw [hout]
  exact ⟨_, rfl⟩

lemma processBoundaries_envOk {env : Env} (henv : envOk env)
    (callbacks : List Callback) (session_id sample_rate : Nat) :
    ∀ (bs : List (Nat × Nat)) (L : Nat) (st : WorkerState),
      (processBoundaries env callbacks session_id sample_rate bs L st).2 = none
      ∧ (processBoundaries env callbacks session_id sample_rate bs L st).1.ranges
          = st.ranges ++ bs.takeWhile (fun b => decide (b.2 ≤ L))
      ∧ (processBoundaries env callbacks session_id sample_rate bs L st).1.chunk_index
          = st.chunk_index + (bs.takeWhile (fun b => decide (b.2 ≤ L))).length
      ∧ (processBoundaries env callbacks session_id sample_rate bs L st).1.last_chunk_end
          = ((bs.takeWhile (fun b => decide (b.2 ≤ L))).map Prod.snd).getLastD
              st.last_chunk_end := by
  intro bs
  induction bs with
  | nil => intro L st; simp [processBoundaries]
  | cons b rest ih =>
    intro L st
    obtain ⟨s, e⟩ := b
    by_cases hLe : L < e
    · have hpred : decide ((s, e).2 ≤ L) = false := by simp; omega
      simp [processBoundaries, if_pos hLe, List.takeWhile_cons, hpred]
    · have hpred : decide ((s, e).2 ≤ L) = true := by simp; omega
      obtain ⟨st1, hok⟩ := process_single_chunk_ok_of_envOk henv callbacks
        session_id sample_rate st (e - s)
      obtain ⟨hlast, hci, hranges, _, _⟩ := process_single_chunk_ok_effects hok
      have hunfold : processBoundaries env callbacks session_id sample_rate
          ((s, e) :: rest) L st
        = processBoundaries env callbacks session_id sample_rate rest L
            { st1 with
                last_chunk_end := e,
                chunk_index := st1.chunk_index + 1,
                ranges := st1.ranges ++ [(s, e)] } := by
        simp [processBoundaries, if_neg hLe, hok]
      obtain ⟨ih1, ih2, ih3, ih4⟩ := ih L
        { st1 with
            last_chunk_end := e,
            chunk_index := st1.chunk_index + 1,
            ranges := st1.ranges ++ [(s, e)] }
      rw [hunfold]
      refine ⟨ih1, ?_, ?_, ?_⟩
      · rw [ih2]
        simp [List.takeWhile_cons, hpred, hranges]
      · rw [ih3]
        simp [List.takeWhile_cons, hpred, hci]
        omega
      · rw [ih4]
        have htw : List.takeWhile (fun b : Nat × Nat => decide (b.2 ≤ L)) ((s, e) :: rest)
            = (s, e) :: List.takeWhile (fun b : Nat × Nat => decide (b.2 ≤ L)) rest := by
          simp [List.takeWhile_cons, hpred]
        rw [htw, List.map_cons, List.getLastD_cons]

/-- C2: in one run of the worker's chunk pass, with a non-raising environment
the boundaries consumed are exactly the longest prefix whose ends fit in the
snapshot, handed over strictly in list order (the `ranges` trace extends by
that prefix, `_chunk_index` advances by its length, `_last_chunk_end` ends at
the last consumed boundary's end); and when processing a boundary raises, the
round ends at once with `_last_chunk_end` and `_chunk_index` not advanced for
that boundary. -/
theorem worker_pass_in_order (env : Env) (callbacks : List Callback)
    (session_id sample_rate : Nat) :
    (envOk env → ∀ (bs : List (Nat × Nat)) (L : Nat) (st : WorkerState),
      (processBoundaries env callbacks session_id sample_rate bs L st).2 = none
      ∧ (processBoundaries env callbacks session_id sample_rate bs L st).1.ranges
          = st.ranges ++ bs.takeWhile (fun b => decide (b.2 ≤ L))
      ∧ (processBoundaries env callbacks session_id sample_rate bs L st).1.chunk_index
          = st.chunk_index + (bs.takeWhile (fun b => decide (b.2 ≤ L))).length
      ∧ (processBoundaries env callbacks session_id sample_rate bs L st).1.last_chunk_end
          = ((bs.takeWhile (fun b => decide (b.2 ≤ L))).map Prod.snd).getLastD
              st.last_chunk_end)
    ∧ (∀ (s e : Nat) (rest : List (Nat × Nat)) (L : Nat) (st : WorkerState)
          (msg : String),
        e ≤ L →
        process_single_chunk env callbacks session_id sample_rate st (e - s)
          = .error msg →
        processBoundaries env callbacks session_id sample_rate ((s, e) :: rest) L st
          = (st, some msg)) := by
  constructor
  · intro henv bs L st
    exact processBoundaries_envOk henv callbacks session_id sample_rate bs L st
  · intro s e rest L st msg hle hfail
    simp [processBoundaries, if_neg (Nat.not_lt.mpr hle), hfail]

/-- Test environment whose transcription always returns no segments and whose
row insert always succeeds. -/
def envOkTest : Env := ⟨fun _ => .ok [], fun _ => .ok ()⟩

/-- Test environment whose transcription always raises. -/
def envFailTest : Env := ⟨fun _ => .error "whisper crashed", fun _ => .ok ()⟩

lemma envOkTest_ok : envOk envOkTest :=
  ⟨fun _ => ⟨[], rfl⟩, fun _ => rfl⟩

theorem worker_pass_in_order_witness :
    envOk envOkTest
    ∧ ((processBoundaries envOkTest [] 1 16000 [(0, 5), (5, 10), (10, 15)] 10
          initState).2 = none
      ∧ (processBoundaries envOkTest [] 1 16000 [(0, 5), (5, 10), (10, 15)] 10
          initState).1.ranges
          = initState.ranges
            ++ [(0, 5), (5, 10), (10, 15)].takeWhile (fun b => decide (b.2 ≤ 10))
      ∧ (processBoundaries envOkTest [] 1 16000 [(0, 5), (5, 10), (10, 15)] 10
          initState).1.chunk_index
          = initState.chunk_index
            + ([(0, 5), (5, 10), (10, 15)].takeWhile (fun b => decide (b.2 ≤ 10))).length
      ∧ (processBoundaries envOkTest [] 1 16000 [(0, 5), (5, 10), (10, 15)] 10
          initState).1.last_chunk_end
          = (([(0, 5), (5, 10), (10, 15)].takeWhile
              (fun b => decide (b.2 ≤ 10))).map Prod.snd).getLastD
              initState.last_chunk_end)
    ∧ ((5 : Nat) ≤ 10
      ∧ process_single_chunk envFailTest [] 1 16000 initState (5 - 0)
          = .error "whisper crashed"
      ∧ processBoundaries envFailTest [] 1 16000 [(0, 5), (5, 10)] 10 initState
          = (initState, some "whisper crashed")) :=
  ⟨envOkTest_ok,
   (worker_pass_in_order envOkTest [] 1 16000).1 envOkTest_ok
     [(0, 5), (5, 10), (10, 15)] 10 initState,
   by norm_num, rfl,
   (worker_pass_in_order envFailTest [] 1 16000).2 0 5 [(5, 10)] 10 initState
     "whisper crashed" (by norm_num) rfl⟩

/-- Chunk indices of the notifications fired so far, in firing order. -/
def firedIndices (st : WorkerState) : List Nat :=
  st.fired.map (fun p => p.1.chunk_index)

/-- Chunk indices of the rows inserted so far, in insertion order. -/
def rowIndices (st : WorkerState) : List Nat :=
  st.rows.map ChunkRow.chunk_index

/-- Bookkeeping invariant: the rows inserted and the notifications fired so
far carry exactly the indices `0, 1, ..., _chunk_index - 1`, in order. -/
def idxInv (st : WorkerState) : Prop :=
  rowIndices st = List.range st.chunk_index
  ∧ firedIndices st = List.range st.chunk_index

lemma idxInv_step {env : Env} {callbacks : List Callback}
    {session_id sample_rate : Nat} {st st1 : WorkerState} {nsamples : Nat}
    (hok : process_single_chunk env callbacks session_id sample_rate st nsamples
            = .ok st1)
    (hinv : idxInv st) (e : Nat) (ranges1 : List (Nat × Nat)) :
    idxInv { st1 with
               last_chunk_end := e,
               chunk_index := st1.chunk_index + 1,
               ranges := ranges1 } := by
  obtain ⟨_, hci, _, ⟨row, hrowci, hrows⟩, ⟨meta, results, hmetaci, _, hfired⟩⟩ :=
    process_single_chunk_ok_effects hok
  constructor
  · show (st1.rows.map ChunkRow.chunk_index) = List.range (st1.chunk_index + 1)
    rw [hrows, hci, List.map_append, List.range_succ]
    rw [show (st.rows.map ChunkRow.chunk_index) = rowIndices st from rfl, hinv.1]
    simp [hrowci]
  · show (st1.fired.map (fun p => p.1.chunk_index)) = List.range (st1.chunk_index + 1)
    rw [hfired, hci, List.map_append, List.range_succ]
    rw [show (st.fired.map (fun p => p.1.chunk_index)) = firedIndices st from rfl, hinv.2]
    simp [hmetaci]

lemma processBoundaries_idxInv (env : Env) (callbacks : List Callback)
    (session_id sample_rate : Nat) :
    ∀ (bs : List (Nat × Nat)) (L : Nat) (st : WorkerState), idxInv st →
      idxInv (processBoundaries env callbacks session_id sample_rate bs L st).1 := by
  intro bs
  induction bs with
  | nil => intro L st h; simpa [processBoundaries] using h
  | cons b rest ih =>
    intro L st h
    obtain ⟨s, e⟩ := b
    by_cases hLe : L < e
    · simpa [processBoundaries, if_pos hLe] using h
    · cases hok : process_single_chunk env callbacks session_id sample_rate st (e - s) with
      | error msg => simpa [processBoundaries, if_neg hLe, hok] using h
      | ok st1 =>
        have hunfold : processBoundaries env callbacks session_id sample_rate
            ((s, e) :: rest) L st
          = processBoundaries env callbacks session_id sample_rate rest L
              { st1 with
                  last_chunk_end := e,
                  chunk_index := st1.chunk_index + 1,
                  ranges := st1.ranges ++ [(s, e)] } := by
          simp [processBoundaries, if_neg hLe, hok]
        rw [hunfold]
        exact ih L _ (idxInv_step hok h e _)

lemma maybe_process_chunks_idxInv (env : Env) (callbacks : List Callback)
    (session_id sample_rate samples_per_chunk : Nat)
    (total : Nat) (buffer : List Nat) (st : WorkerState) (h : idxInv st) :
    idxInv (maybe_process_chunks env callbacks session_id sample_rate
              samples_per_chunk total buffer st).1 := by
  unfold maybe_process_chunks
  split
  · exact h
  · split
    · exact h
    · exact processBoundaries_idxInv env callbacks session_id sample_rate _ _ st h

lemma worker_loop_idxInv (env : Env) (callbacks : List Callback)
    (session_id sample_rate samples_per_chunk : Nat) :
    ∀ (polls : List Poll) (st : WorkerState), idxInv st →
      idxInv (worker_loop env callbacks session_id sample_rate samples_per_chunk
                polls st).1 := by
  intro polls
  induction polls with
  | nil => intro st h; exact h
  | cons poll rest ih =>
    intro st h
    have h1 := maybe_process_chunks_idxInv env callbacks session_id sample_rate
      samples_per_chunk poll.total poll.buffer st h
    cases hm : maybe_process_chunks env callbacks session_id sample_rate
        samples_per_chunk poll.total poll.buffer st with
    | mk st1 err =>
      rw [hm] at h1
      cases err with
      | none =>
          have : worker_loop env callbacks session_id sample_rate samples_per_chunk
              (poll :: rest) st
            = worker_loop env callbacks session_id sample_rate samples_per_chunk
                rest st1 := by
            simp [worker_loop, hm]
          rw [this]
          exact ih st1 h1
      | some msg =>
          have : worker_loop env callbacks session_id sample_rate samples_per_chunk
              (poll :: rest) st = (st1, some msg) := by
            simp [worker_loop, hm]
          rw [this]
          exact h1

lemma flush_remaining_idxInv (env : Env) (callbacks : List Callback)
    (session_id sample_rate : Nat) (buffer : List Nat) (st : WorkerState)
    (h : idxInv st) :
    idxInv (flush_remaining env callbacks session_id sample_rate buffer st).1 := by
  unfold flush_remaining
  split
  · exact h
  · split
    · exact h
    · cases hok : process_single_chunk env callbacks session_id sample_rate st
          (buffer.sum - st.last_chunk_end) with
      | error msg => simpa using h
      | ok st1 => simpa using idxInv_step hok h buffer.sum _

/-- C3: over a whole session (any schedule of polls, then the stop flush), the
chunk indices attached to the fired chunk notifications — and equally to the
inserted transcript rows — form exactly the contiguous, strictly increasing
sequence `0, 1, ..., _chunk_index - 1`: every processed chunk, regular or
flush, takes the current `_chunk_index` and increments it by exactly one, so
no index is skipped or reused. -/
theorem chunk_indices_contiguous (env : Env) (callbacks : List Callback)
    (session_id sample_rate samples_per_chunk : Nat)
    (polls : List Poll) (finalBuffer : List Nat) :
    firedIndices (run_session env callbacks session_id sample_rate samples_per_chunk
        polls finalBuffer).1
      = List.range (run_session env callbacks session_id sample_rate samples_per_chunk
          polls finalBuffer).1.chunk_index
    ∧ rowIndices (run_session env callbacks session_id sample_rate samples_per_chunk
        polls finalBuffer).1
      = List.range (run_session env callbacks session_id sample_rate samples_per_chunk
          polls finalBuffer).1.chunk_index := by
  have h0 : idxInv initState := ⟨rfl, rfl⟩
  have h1 := worker_loop_idxInv env callbacks session_id sample_rate samples_per_chunk
    polls initState h0
  have h2 := flush_remaining_idxInv env callbacks session_id sample_rate finalBuffer
    (worker_loop env callbacks session_id sample_rate samples_per_chunk
      polls initState).1 h1
  exact ⟨h2.2, h2.1⟩

/-- C4: on stop, the flush emits the remainder after `_last_chunk_end` as one
final chunk exactly when it is at least `sample_rate` samples (one second of
audio): at or above the threshold one chunk is fired with the current
`_chunk_index` (index continuity preserved) and the bookkeeping advances to
the end of the buffer; below the threshold — in particular at
`sample_rate - 1` samples — nothing is emitted and the state is unchanged. -/
theorem flush_threshold_spec (env : Env) (callbacks : List Callback)
    (session_id sample_rate : Nat) (buffer : List Nat) (st : WorkerState)
    (henv : envOk env) (hrate : 1 ≤ sample_rate) :
    (sample_rate ≤ buffer.sum - st.last_chunk_end →
      (flush_remaining env callbacks session_id sample_rate buffer st).2 = none
      ∧ (flush_remaining env callbacks session_id sample_rate buffer st).1.chunk_index
          = st.chunk_index + 1
      ∧ firedIndices (flush_remaining env callbacks session_id sample_rate buffer st).1
          = firedIndices st ++ [st.chunk_index]
      ∧ (flush_remaining env callbacks session_id sample_rate buffer st).1.ranges
          = st.ranges ++ [(st.last_chunk_end, buffer.sum)]
      ∧ (flush_remaining env callbacks session_id sample_rate buffer st).1.last_chunk_end
          = buffer.sum)
    ∧ (buffer.sum - st.last_chunk_end < sample_rate →
        flush_remaining env callbacks session_id sample_rate buffer st = (st, none)) := by
  constructor
  · intro hge
    have hsum : 1 ≤ buffer.sum := by omega
    have hbuf : buffer.isEmpty = false := by
      cases buffer with
      | nil => simp at hsum
      | cons a l => rfl
    obtain ⟨st1, hok⟩ := process_single_chunk_ok_of_envOk henv callbacks session_id
      sample_rate st (buffer.sum - st.last_chunk_end)
    obtain ⟨hlast, hci, hranges, _, ⟨meta, results, hmetaci, _, hfired⟩⟩ :=
      process_single_chunk_ok_effects hok
    have hnlt : ¬ (buffer.sum - st.last_chunk_end < sample_rate) := by omega
    have hunfold : flush_remaining env callbacks session_id sample_rate buffer st
        = ({ st1 with
               last_chunk_end := buffer.sum,
               chunk_index := st1.chunk_index + 1,
               ranges := st1.ranges ++ [(st.last_chunk_end, buffer.sum)] }, none) := by
      simp [flush_remaining, hbuf, hnlt, hok]
    rw [hunfold]
    refine ⟨rfl, by simp [hci], ?_, by simp [hranges], rfl⟩
    show (st1.fired.map (fun p => p.1.chunk_index)) = firedIndices st ++ [st.chunk_index]
    rw [hfired, List.map_append]
    simp [hmetaci, firedIndices]
  · intro hlt
    cases hb : buffer.isEmpty with
    | true => simp [flush_remaining, hb]
    | false => simp [flush_remaining, hb, hlt]

theorem flush_threshold_spec_witness :
    ((3 : Nat) ≤ List.sum [2, 1] - initState.last_chunk_end
      ∧ (flush_remaining envOkTest [] 1 3 [2, 1] initState).2 = none
      ∧ (flush_remaining envOkTest [] 1 3 [2, 1] initState).1.chunk_index
          = initState.chunk_index + 1
      ∧ firedIndices (flush_remaining envOkTest [] 1 3 [2, 1] initState).1
          = firedIndices initState ++ [initState.chunk_index]
      ∧ (flush_remaining envOkTest [] 1 3 [2, 1] initState).1.ranges
          = initState.ranges ++ [(initState.last_chunk_end, List.sum [2, 1])]
      ∧ (flush_remaining envOkTest [] 1 3 [2, 1] initState).1.last_chunk_end
          = List.sum [2, 1])
    ∧ (List.sum [2] - initState.last_chunk_end < 3
      ∧ flush_remaining envOkTest [] 1 3 [2] initState = (initState, none)) :=
  ⟨⟨by decide,
    (flush_threshold_spec envOkTest [] 1 3 [2, 1] initState envOkTest_ok
      (by norm_num)).1 (by decide)⟩,
   ⟨by decide,
    (flush_threshold_spec envOkTest [] 1 3 [2] initState envOkTest_ok
      (by norm_num)).2 (by decide)⟩⟩

/-- C5: for every processed chunk, the persisted row carries text equal to the
segment texts joined with single spaces, confidence equal to the arithmetic
mean of the segment confidences (`0` for an empty segment list), and start/end
times equal to `_last_chunk_end / sample_rate` and
`(_last_chunk_end + nsamples) / sample_rate` rounded to two decimals; the
fired notification carries the same index, times and text together with the
raw segments. -/
theorem chunk_fields_spec (env : Env) (callbacks : List Callback)
    (session_id sample_rate : Nat) (st st1 : WorkerState) (nsamples : Nat)
    (segs : List Segment)
    (ht : env.transcribe st.chunk_index = .ok segs)
    (hok : process_single_chunk env callbacks session_id sample_rate st nsamples
            = .ok st1) :
    ∃ row : ChunkRow,
      st1.rows = st.rows ++ [row]
      ∧ row.session_id = session_id
      ∧ row.chunk_index = st.chunk_index
      ∧ row.text = String.intercalate " " (segs.map Segment.text)
      ∧ row.confidence = (if segs = [] then 0
          else (segs.map Segment.confidence).sum / (segs.length : Rat))
      ∧ row.start_time = round2 ((st.last_chunk_end : Rat) / (sample_rate : Rat))
      ∧ row.end_time
          = round2 (((st.last_chunk_end : Rat) + (nsamples : Rat)) / (sample_rate : Rat))
      ∧ ∃ results : List (Except String Unit),
          st1.fired = st.fired ++
            [(⟨session_id, st.chunk_index, row.start_time, row.end_time, row.text, segs⟩,
              results)] := by
  obtain ⟨row, meta, ho, hst1⟩ := process_single_chunk_ok_parts hok
  have hspec : row = ⟨session_id, st.chunk_index,
        round2 ((st.last_chunk_end : Rat) / (sample_rate : Rat)),
        round2 (((st.last_chunk_end + nsamples : Nat) : Rat) / (sample_rate : Rat)),
        String.intercalate " " (segs.map Segment.text),
        if segs.isEmpty then 0
        else (segs.map Segment.confidence).sum / (segs.length : Rat)⟩
      ∧ meta = ⟨session_id, st.chunk_index,
        round2 ((st.last_chunk_end : Rat) / (sample_rate : Rat)),
        round2 (((st.last_chunk_end + nsamples : Nat) : Rat) / (sample_rate : Rat)),
        String.intercalate " " (segs.map Segment.text), segs⟩ := by
    unfold chunkOutcome at ho
    rw [ht] at ho
    simp only at ho
    cases hp : env.persistRow _ with
    | error msg => rw [hp] at ho; exact absurd ho (by simp)
    | ok u =>
      rw [hp] at ho
      simp only [Except.ok.injEq, Prod.mk.injEq] at ho
      exact ⟨ho.1.symm, ho.2.symm⟩
  obtain ⟨hrow, hmeta⟩ := hspec
  subst hst1
  subst hrow
  subst hmeta
  refine ⟨_, rfl, rfl, rfl, rfl, ?_, rfl, ?_, ⟨_, rfl⟩⟩
  · show (if segs.isEmpty then (0 : Rat)
          else (segs.map Segment.confidence).sum / (segs.length : Rat))
      = (if segs = [] then (0 : Rat)
          else (segs.map Segment.confidence).sum / (segs.length : Rat))
    cases segs <;> simp
  · show round2 (((st.last_chunk_end + nsamples : Nat) : Rat) / (sample_rate : Rat))
      = round2 (((st.last_chunk_end : Rat) + (nsamples : Rat)) / (sample_rate : Rat))
    congr 1
    push_cast
    ring

/-- Segments used by the test environment below. -/
def segA : Segment := ⟨"hello", -1/2⟩

/-- Second segment used by the test environment below. -/
def segB : Segment := ⟨"world", -1/4⟩

/-- Test environment whose transcription always returns two segments. -/
def envSegTest : Env := ⟨fun _ => .ok [segA, segB], fun _ => .ok ()⟩

/-- Extract the success value of an `Except`, defaulting to `initState`. -/
def exceptGetOk : Except String WorkerState → WorkerState
  | .ok st => st
  | .error _ => initState

/-- The worker state produced by one chunk under `envSegTest`. -/
def procTestOut : WorkerState :=
  exceptGetOk (process_single_chunk envSegTest [] 1 16000 initState 32000)

theorem chunk_fields_spec_witness :
    (envSegTest.transcribe initState.chunk_index = Except.ok [segA, segB]
      ∧ process_single_chunk envSegTest [] 1 16000 initState 32000
          = Except.ok procTestOut)
    ∧ ∃ row : ChunkRow,
        procTestOut.rows = initState.rows ++ [row]
        ∧ row.session_id = 1
        ∧ row.chunk_index = initState.chunk_index
        ∧ row.text = String.intercalate " " ([segA, segB].map Segment.text)
        ∧ row.confidence = (if [segA, segB] = ([] : List Segment) then 0
            else ([segA, segB].map Segment.confidence).sum
                  / (([segA, segB] : List Segment).length : Rat))
        ∧ row.start_time = round2 ((initState.last_chunk_end : Rat) / ((16000 : Nat) : Rat))
        ∧ row.end_time
            = round2 (((initState.last_chunk_end : Rat) + ((32000 : Nat) : Rat))
                / ((16000 : Nat) : Rat))
        ∧ ∃ results : List (Except String Unit),
            procTestOut.fired = initState.fired ++
              [(⟨1, initState.chunk_index, row.start_time, row.end_time, row.text,
                  [segA, segB]⟩, results)] :=
  ⟨⟨rfl, rfl⟩,
   chunk_fields_spec envSegTest [] 1 16000 initState procTestOut 32000 [segA, segB]
     rfl rfl⟩

/-- Transform a worker state by prepending, to every fired notification's
result list, the outcome of one extra callback `bad` on that chunk's
metadata. -/
def addBad (bad : Callback) (st : WorkerState) : WorkerState :=
  { st with fired := st.fired.map (fun p => (p.1, bad p.1 :: p.2)) }

lemma chunkOutcome_addBad (env : Env) (bad : Callback)
    (session_id sample_rate : Nat) (st : WorkerState) (nsamples : Nat) :
    chunkOutcome env session_id sample_rate (addBad bad st) nsamples
      = chunkOutcome env session_id sample_rate st nsamples := rfl

lemma process_single_chunk_addBad (env : Env) (bad : Callback)
    (callbacks : List Callback) (session_id sample_rate : Nat)
    (st : WorkerState) (nsamples : Nat) :
    process_single_chunk env (bad :: callbacks) session_id sample_rate
        (addBad bad st) nsamples
      = Except.map (addBad bad)
          (process_single_chunk env callbacks session_id sample_rate st nsamples) := by
  unfold process_single_chunk
  rw [chunkOutcome_addBad]
  cases chunkOutcome env session_id sample_rate st nsamples with
  | error msg => rfl
  | ok pair =>
    obtain ⟨row, meta⟩ := pair
    obtain ⟨lce, ci, rows, fired, ranges⟩ := st
    simp [Except.map, addBad, List.map_append]

lemma addBad_update (bad : Callback) (st1 : WorkerState) (e : Nat)
    (r : List (Nat × Nat)) :
    { addBad bad st1 with
        last_chunk_end := e,
        chunk_index := (addBad bad st1).chunk_index + 1,
        ranges := (addBad bad st1).ranges ++ r }
      = addBad bad { st1 with
          last_chunk_end := e,
          chunk_index := st1.chunk_index + 1,
          ranges := st1.ranges ++ r } := by
  obtain ⟨lce, ci, rows, fired, ranges⟩ := st1
  rfl

lemma processBoundaries_addBad (env : Env) (bad : Callback)
    (callbacks : List Callback) (session_id sample_rate : Nat) :
    ∀ (bs : List (Nat × Nat)) (L : Nat) (st : WorkerState),
      processBoundaries env (bad :: callbacks) session_id sample_rate bs L
          (addBad bad st)
        = (addBad bad (processBoundaries env callbacks session_id sample_rate bs L st).1,
           (processBoundaries env callbacks session_id sample_rate bs L st).2) := by
  intro bs
  induction bs with
  | nil => intro L st; rfl
  | cons b rest ih =>
    intro L st
    obtain ⟨s, e⟩ := b
    by_cases hLe : L < e
    · simp [processBoundaries, if_pos hLe]
    · simp only [processBoundaries, if_neg hLe]
      rw [process_single_chunk_addBad]
      cases hok : process_single_chunk env callbacks session_id sample_rate st (e - s) with
      | error msg => simp [Except.map]
      | ok st1 =>
        simp only [Except.map]
        rw [addBad_update, ih]

lemma maybe_process_chunks_addBad (env : Env) (bad : Callback)
    (callbacks : List Callback) (session_id sample_rate samples_per_chunk : Nat)
    (total : Nat) (buffer : List Nat) (st : WorkerState) :
    maybe_process_chunks env (bad :: callbacks) session_id sample_rate
        samples_per_chunk total buffer (addBad bad st)
      = (addBad bad (maybe_process_chunks env callbacks session_id sample_rate
            samples_per_chunk total buffer st).1,
         (maybe_process_chunks env callbacks session_id sample_rate
            samples_per_chunk total buffer st).2) := by
  unfold maybe_process_chunks
  have hlast : (addBad bad st).last_chunk_end = st.last_chunk_end := rfl
  rw [hlast]
  split
  · rfl
  · split
    · rfl
    · exact processBoundaries_addBad env bad callbacks session_id sample_rate _ _ st

lemma worker_loop_addBad (env : Env) (bad : Callback) (callbacks : List Callback)
    (session_id sample_rate samples_per_chunk : Nat) :
    ∀ (polls : List Poll) (st : WorkerState),
      worker_loop env (bad :: callbacks) session_id sample_rate samples_per_chunk
          polls (addBad bad st)
        = (addBad bad (worker_loop env callbacks session_id sample_rate
              samples_per_chunk polls st).1,
           (worker_loop env callbacks session_id sample_rate samples_per_chunk
              polls st).2) := by
  intro polls
  induction polls with
  | nil => intro st; rfl
  | cons poll rest ih =>
    intro st
    simp only [worker_loop]
    rw [maybe_process_chunks_addBad]
    cases hm : maybe_process_chunks env callbacks session_id sample_rate
        samples_per_chunk poll.total poll.buffer st with
    | mk st1 err =>
      cases err with
      | none => exact ih st1
      | some msg => rfl

lemma flush_remaining_addBad (env : Env) (bad : Callback)
    (callbacks : List Callback) (session_id sample_rate : Nat)
    (buffer : List Nat) (st : WorkerState) :
    flush_remaining env (bad :: callbacks) session_id sample_rate buffer
        (addBad bad st)
      = (addBad bad (flush_remaining env callbacks session_id sample_rate
            buffer st).1,
         (flush_remaining env callbacks session_id sample_rate buffer st).2) := by
  unfold flush_remaining
  have hlast : (addBad bad st).last_chunk_end = st.last_chunk_end := rfl
  rw [hlast]
  split
  · rfl
  · split
    · rfl
    · rw [process_single_chunk_addBad]
      cases hok : process_single_chunk env callbacks session_id sample_rate st
          (buffer.sum - st.last_chunk_end) with
      | error msg => simp [Except.map]
      | ok st1 =>
        simp only [Except.map]
        rw [addBad_update]

lemma run_session_addBad (env : Env) (bad : Callback) (callbacks : List Callback)
    (session_id sample_rate samples_per_chunk : Nat)
    (polls : List Poll) (finalBuffer : List Nat) :
    run_session env (bad :: callbacks) session_id sample_rate samples_per_chunk
        polls finalBuffer
      = (addBad bad (run_session env callbacks session_id sample_rate
            samples_per_chunk polls finalBuffer).1,
         (run_session env callbacks session_id sample_rate samples_per_chunk
            polls finalBuffer).2) := by
  have h0 : addBad bad initState = initState := rfl
  have h1 := worker_loop_addBad env bad callbacks session_id sample_rate
    samples_per_chunk polls initState
  rw [h0] at h1
  have h2 := flush_remaining_addBad env bad callbacks session_id sample_rate
    finalBuffer (worker_loop env callbacks session_id sample_rate samples_per_chunk
      polls initState).1
  simp only [run_session, h1, h2]

/-- Every notification fired so far carries, entry by entry, exactly the
outcomes of the registered callbacks applied to that entry's metadata. -/
def resultsInv (callbacks : List Callback) (st : WorkerState) : Prop :=
  ∀ p ∈ st.fired, p.2 = callbacks.map (fun fn => fn p.1)

lemma resultsInv_step {env : Env} {callbacks : List Callback}
    {session_id sample_rate : Nat} {st st1 : WorkerState} {nsamples : Nat}
    (hok : process_single_chunk env callbacks session_id sample_rate st nsamples
            = .ok st1)
    (hinv : resultsInv callbacks st) (e : Nat) (ranges1 : List (Nat × Nat)) :
    resultsInv callbacks
      { st1 with
          last_chunk_end := e,
          chunk_index := st1.chunk_index + 1,
          ranges := ranges1 } := by
  obtain ⟨row, meta, ho, hst1⟩ := process_single_chunk_ok_parts hok
  subst hst1
  intro p hp
  simp only [List.mem_append, List.mem_singleton] at hp
  cases hp with
  | inl hmem => exact hinv p hmem
  | inr heq => subst heq; rfl

lemma processBoundaries_resultsInv (env : Env) (callbacks : List Callback)
    (session_id sample_rate : Nat) :
    ∀ (bs : List (Nat × Nat)) (L : Nat) (st : WorkerState), resultsInv callbacks st →
      resultsInv callbacks
        (processBoundaries env callbacks session_id sample_rate bs L st).1 := by
  intro bs
  induction bs with
  | nil => intro L st h; simpa [processBoundaries] using h
  | cons b rest ih =>
    intro L st h
    obtain ⟨s, e⟩ := b
    by_cases hLe : L < e
    · simpa [processBoundaries, if_pos hLe] using h
    · cases hok : process_single_chunk env callbacks session_id sample_rate st (e - s) with
      | error msg => simpa [processBoundaries, if_neg hLe, hok] using h
      | ok st1 =>
        have hunfold : processBoundaries env callbacks session_id sample_rate
            ((s, e) :: rest) L st
          = processBoundaries env callbacks session_id sample_rate rest L
              { st1 with
                  last_chunk_end := e,
                  chunk_index := st1.chunk_index + 1,
                  ranges := st1.ranges ++ [(s, e)] } := by
          simp [processBoundaries, if_neg hLe, hok]
        rw [hunfold]
        exact ih L _ (resultsInv_step hok h e _)

lemma maybe_process_chunks_resultsInv (env : Env) (callbacks : List Callback)
    (session_id sample_rate samples_per_chunk : Nat)
    (total : Nat) (buffer : List Nat) (st : WorkerState)
    (h : resultsInv callbacks st) :
    resultsInv callbacks
      (maybe_process_chunks env callbacks session_id sample_rate samples_per_chunk
        total buffer st).1 := by
  unfold maybe_process_chunks
  split
  · exact h
  · split
    · exact h
    · exact processBoundaries_resultsInv env callbacks session_id sample_rate _ _ st h

lemma worker_loop_resultsInv (env : Env) (callbacks : List Callback)
    (session_id sample_rate samples_per_chunk : Nat) :
    ∀ (polls : List Poll) (st : WorkerState), resultsInv callbacks st →
      resultsInv callbacks
        (worker_loop env callbacks session_id sample_rate samples_per_chunk
          polls st).1 := by
  intro polls
  induction polls with
  | nil => intro st h; exact h
  | cons poll rest ih =>
    intro st h
    have h1 := maybe_process_chunks_resultsInv env callbacks session_id sample_rate
      samples_per_chunk poll.total poll.buffer st h
    cases hm : maybe_process_chunks env callbacks session_id sample_rate
        samples_per_chunk poll.total poll.buffer st with
    | mk st1 err =>
      rw [hm] at h1
      cases err with
      | none =>
          have heq : worker_loop env callbacks session_id sample_rate samples_per_chunk
              (poll :: rest) st
            = worker_loop env callbacks session_id sample_rate samples_per_chunk
                rest st1 := by
            simp [worker_loop, hm]
          rw [heq]
          exact ih st1 h1
      | some msg =>
          have heq : worker_loop env callbacks session_id sample_rate samples_per_chunk
              (poll :: rest) st = (st1, some msg) := by
            simp [worker_loop, hm]
          rw [heq]
          exact h1

lemma flush_remaining_resultsInv (env : Env) (callbacks : List Callback)
    (session_id sample_rate : Nat) (buffer : List Nat) (st : WorkerState)
    (h : resultsInv callbacks st) :
    resultsInv callbacks
      (flush_remaining env callbacks session_id sample_rate buffer st).1 := by
  unfold flush_remaining
  split
  · exact h
  · split
    · exact h
    · cases hok : process_single_chunk env callbacks session_id sample_rate st
          (buffer.sum - st.last_chunk_end) with
      | error msg => simpa using h
      | ok st1 => simpa using resultsInv_step hok h buffer.sum _

lemma run_session_resultsInv (env : Env) (callbacks : List Callback)
    (session_id sample_rate samples_per_chunk : Nat)
    (polls : List Poll) (finalBuffer : List Nat) :
    resultsInv callbacks
      (run_session env callbacks session_id sample_rate samples_per_chunk
        polls finalBuffer).1 := by
  have h0 : resultsInv callbacks initState := by intro p hp; simp [initState] at hp
  have h1 := worker_loop_resultsInv env callbacks session_id sample_rate
    samples_per_chunk polls initState h0
  exact flush_remaining_resultsInv env callbacks session_id sample_rate finalBuffer _ h1

/-- C6: an exception raised by a registered listener is caught and discarded.
Adding one more listener `bad` — in particular one that raises on every
invocation — changes nothing about the pipeline: the same rows are inserted,
the same indices, ranges and bookkeeping result, the loop and flush fail or
succeed identically, every notification carries the same metadata, and every
other listener is still invoked exactly once per chunk with that metadata
(`bad` itself is also invoked once per chunk). -/
theorem listener_isolation (env : Env) (bad : Callback) (callbacks : List Callback)
    (session_id sample_rate samples_per_chunk : Nat)
    (polls : List Poll) (finalBuffer : List Nat) :
    (run_session env (bad :: callbacks) session_id sample_rate samples_per_chunk
        polls finalBuffer).1.rows
      = (run_session env callbacks session_id sample_rate samples_per_chunk
          polls finalBuffer).1.rows
    ∧ (run_session env (bad :: callbacks) session_id sample_rate samples_per_chunk
        polls finalBuffer).1.chunk_index
      = (run_session env callbacks session_id sample_rate samples_per_chunk
          polls finalBuffer).1.chunk_index
    ∧ (run_session env (bad :: callbacks) session_id sample_rate samples_per_chunk
        polls finalBuffer).1.last_chunk_end
      = (run_session env callbacks session_id sample_rate samples_per_chunk
          polls finalBuffer).1.last_chunk_end
    ∧ (run_session env (bad :: callbacks) session_id sample_rate samples_per_chunk
        polls finalBuffer).1.ranges
      = (run_session env callbacks session_id sample_rate samples_per_chunk
          polls finalBuffer).1.ranges
    ∧ (run_session env (bad :: callbacks) session_id sample_rate samples_per_chunk
        polls finalBuffer).2
      = (run_session env callbacks session_id sample_rate samples_per_chunk
          polls finalBuffer).2
    ∧ (run_session env (bad :: callbacks) session_id sample_rate samples_per_chunk
        polls finalBuffer).1.fired
      = (run_session env callbacks session_id sample_rate samples_per_chunk
          polls finalBuffer).1.fired.map (fun p => (p.1, bad p.1 :: p.2))
    ∧ ∀ p ∈ (run_session env (bad :: callbacks) session_id sample_rate
          samples_per_chunk polls finalBuffer).1.fired,
        p.2 = bad p.1 :: callbacks.map (fun fn => fn p.1) := by
  have hmap := run_session_addBad env bad callbacks session_id sample_rate
    samples_per_chunk polls finalBuffer
  have hres := run_session_resultsInv env (bad :: callbacks) session_id sample_rate
    samples_per_chunk polls finalBuffer
  refine ⟨?_, ?_, ?_, ?_, ?_, ?_, ?_⟩
  · rw [hmap]; rfl
  · rw [hmap]; rfl
  · rw [hmap]; rfl
  · rw [hmap]; rfl
  · rw [hmap]
  · rw [hmap]; rfl
  · intro p hp
    exact hres p hp

/-- Session lifecycle status, the `status` column of the `sessions` table
(`idle`, `recording`, `stopped`). -/
inductive SessionStatus
  | idle
  | recording
  | stopped
deriving DecidableEq

/-- One recording session at system level: the persisted status, whether the
daemon worker thread is still alive, the worker's chunk state, and the
uncaught exception (if any) that killed the thread. -/
structure SysState where
  status : SessionStatus
  workerAlive : Bool
  wst : WorkerState
  workerErr : Option String

/-- One iteration of `_worker_loop` at system level: a live worker runs
`_maybe_process_chunks`; since the loop body has no exception handler
(worker.py lines 131-134), an uncaught exception terminates the thread, and
nothing in the worker updates the session status.  A dead worker does
nothing. -/
def sysPoll (env : Env) (callbacks : List Callback)
    (session_id sample_rate samples_per_chunk : Nat)
    (p : Poll) (s : SysState) : SysState :=
  if s.workerAlive then
    match maybe_process_chunks env callbacks session_id sample_rate samples_per_chunk
        p.total p.buffer s.wst with
    | (st1, none) => { s with wst := st1 }
    | (st1, some msg) =>
        { s with wst := st1, workerAlive := false, workerErr := some msg }
  else s

lemma sysPoll_dead (env : Env) (callbacks : List Callback)
    (session_id sample_rate samples_per_chunk : Nat) :
    ∀ (polls : List Poll) (s : SysState), s.workerAlive = false →
      polls.foldl (fun acc q => sysPoll env callbacks session_id sample_rate
        samples_per_chunk q acc) s = s := by
  intro polls
  induction polls with
  | nil => intro s h; rfl
  | cons q rest ih =>
    intro s h
    have hstep : sysPoll env callbacks session_id sample_rate samples_per_chunk q s
        = s := by
      simp [sysPoll, h]
    rw [List.foldl_cons, hstep]
    exact ih s h

/-- C7: a transcription or persistence failure during chunk processing is not
isolated: the exception propagates out of `_maybe_process_chunks` into the
polling loop, which has no enclosing recovery, so the loop returns at once
with that exception and the thread dies; across that poll and every later
one the session status is never updated and stays `recording`, the worker
stays dead, and no further chunks are produced (the worker state is frozen at
the failure point). -/
theorem processing_failure_halts_worker (env : Env) (callbacks : List Callback)
    (session_id sample_rate samples_per_chunk : Nat)
    (s : SysState) (p : Poll) (polls : List Poll)
    (hrec : s.status = SessionStatus.recording)
    (halive : s.workerAlive = true)
    (hfail : (maybe_process_chunks env callbacks session_id sample_rate
        samples_per_chunk p.total p.buffer s.wst).2.isSome = true) :
    worker_loop env callbacks session_id sample_rate samples_per_chunk
        (p :: polls) s.wst
      = ((maybe_process_chunks env callbacks session_id sample_rate samples_per_chunk
            p.total p.buffer s.wst).1,
         (maybe_process_chunks env callbacks session_id sample_rate samples_per_chunk
            p.total p.buffer s.wst).2)
    ∧ ((p :: polls).foldl (fun acc q => sysPoll env callbacks session_id sample_rate
          samples_per_chunk q acc) s).status = SessionStatus.recording
    ∧ ((p :: polls).foldl (fun acc q => sysPoll env callbacks session_id sample_rate
          samples_per_chunk q acc) s).workerAlive = false
    ∧ ((p :: polls).foldl (fun acc q => sysPoll env callbacks session_id sample_rate
          samples_per_chunk q acc) s).wst
        = (maybe_process_chunks env callbacks session_id sample_rate samples_per_chunk
            p.total p.buffer s.wst).1
    ∧ ((p :: polls).foldl (fun acc q => sysPoll env callbacks session_id sample_rate
          samples_per_chunk q acc) s).workerErr
        = (maybe_process_chunks env callbacks session_id sample_rate samples_per_chunk
            p.total p.buffer s.wst).2 := by
  cases hm : maybe_process_chunks env callbacks session_id sample_rate
      samples_per_chunk p.total p.buffer s.wst with
  | mk st1 err =>
    cases err with
    | none => rw [hm] at hfail; simp at hfail
    | some msg =>
      have hstep : sysPoll env callbacks session_id sample_rate samples_per_chunk p s
          = { s with wst := st1, workerAlive := false, workerErr := some msg } := by
        simp [sysPoll, halive, hm]
      have hfold : (p :: polls).foldl (fun acc q => sysPoll env callbacks session_id
            sample_rate samples_per_chunk q acc) s
          = { s with wst := st1, workerAlive := false, workerErr := some msg } := by
        rw [List.foldl_cons, hstep]
        exact sysPoll_dead env callbacks session_id sample_rate samples_per_chunk
          polls _ rfl
      refine ⟨?_, ?_, ?_, ?_, ?_⟩
      · simp [worker_loop, hm]
      · rw [hfold]; exact hrec
      · rw [hfold]
      · rw [hfold]
      · rw [hfold]

/-- System state used by the C7 witness: a freshly started session. -/
def sysTest : SysState := ⟨SessionStatus.recording, true, initState, none⟩

theorem processing_failure_halts_worker_witness :
    (sysTest.status = SessionStatus.recording
      ∧ sysTest.workerAlive = true
      ∧ (maybe_process_chunks envFailTest [] 1 16000 32000 32000 [32000]
          sysTest.wst).2.isSome = true)
    ∧ (worker_loop envFailTest [] 1 16000 32000 [⟨32000, [32000]⟩] sysTest.wst
        = ((maybe_process_chunks envFailTest [] 1 16000 32000 32000 [32000]
              sysTest.wst).1,
           (maybe_process_chunks envFailTest [] 1 16000 32000 32000 [32000]
              sysTest.wst).2)
      ∧ ([(⟨32000, [32000]⟩ : Poll)].foldl (fun acc q => sysPoll envFailTest [] 1 16000
            32000 q acc) sysTest).status = SessionStatus.recording
      ∧ ([(⟨32000, [32000]⟩ : Poll)].foldl (fun acc q => sysPoll envFailTest [] 1 16000
            32000 q acc) sysTest).workerAlive = false
      ∧ ([(⟨32000, [32000]⟩ : Poll)].foldl (fun acc q => sysPoll envFailTest [] 1 16000
            32000 q acc) sysTest).wst
          = (maybe_process_chunks envFailTest [] 1 16000 32000 32000 [32000]
              sysTest.wst).1
      ∧ ([(⟨32000, [32000]⟩ : Poll)].foldl (fun acc q => sysPoll envFailTest [] 1 16000
            32000 q acc) sysTest).workerErr
          = (maybe_process_chunks envFailTest [] 1 16000 32000 32000 [32000]
              sysTest.wst).2) :=
  ⟨⟨rfl, rfl, rfl⟩,
   processing_failure_halts_worker envFailTest [] 1 16000 32000 sysTest
     ⟨32000, [32000]⟩ [] rfl rfl rfl⟩

/-- The per-session view of the recording routes: the persisted `status` of
the session row and whether `_active[session_id]` currently holds a worker. -/
structure RouteState where
  status : SessionStatus
  workerActive : Bool
deriving DecidableEq

deriving instance DecidableEq for Except

/-- Outcome of the start route: the final state, the ordered list of session
status writes it committed, and the HTTP response (`.error` carries the
raised `HTTPException` status code). -/
structure StartOutcome where
  state : RouteState
  statusWrites : List SessionStatus
  response : Except Nat Unit
deriving DecidableEq

/-- `routes/recording.py::start_recording` (lines 26-90): reject with 409 only
when a worker is already registered; 404 when the session row is missing;
otherwise commit `status = 'recording'`, register the worker and start it —
on a source-open failure clear the registry's worker, commit `status = 'idle'`
and raise 500. -/
def start_recording (sessionExists openOk : Bool) (s : RouteState) : StartOutcome :=
  if s.workerActive then ⟨s, [], .error 409⟩
  else if !sessionExists then ⟨s, [], .error 404⟩
  else if openOk then
    ⟨⟨SessionStatus.recording, true⟩, [SessionStatus.recording], .ok ()⟩
  else
    ⟨⟨SessionStatus.idle, false⟩,
      [SessionStatus.recording, SessionStatus.idle], .error 500⟩

/-- `routes/recording.py::stop_recording` (lines 93-144): 400 when no worker
is active; otherwise stop and join the worker, clear the registry entry's
worker, and commit `status = 'stopped'`. -/
def stop_recording (s : RouteState) : RouteState × Except Nat Unit :=
  if !s.workerActive then (s, .error 400)
  else (⟨SessionStatus.stopped, false⟩, .ok ())

/-- C8: when opening the audio source fails while starting a recording for an
existing session with no active worker, the failure is surfaced synchronously
as a 500 error, the registry entry holds no worker, and the pre-committed
`recording` status write is rolled back by a second write leaving the session
`idle`. -/
theorem start_failure_rolls_back (s : RouteState) (hw : s.workerActive = false) :
    start_recording true false s
      = ⟨⟨SessionStatus.idle, false⟩,
          [SessionStatus.recording, SessionStatus.idle], .error 500⟩ := by
  simp [start_recording, hw]

theorem start_failure_rolls_back_witness :
    (⟨SessionStatus.idle, false⟩ : RouteState).workerActive = false
    ∧ start_recording true false ⟨SessionStatus.idle, false⟩
        = ⟨⟨SessionStatus.idle, false⟩,
            [SessionStatus.recording, SessionStatus.idle], .error 500⟩ :=
  ⟨rfl, start_failure_rolls_back ⟨SessionStatus.idle, false⟩ rfl⟩

/-- C9 counterexample: the claim that a stopped session can never return to
`recording` is false in the code.  Starting an idle session, stopping it
(leaving it `stopped` with its worker cleared), and then calling start again
on the same session identifier succeeds — the start route only rejects when a
worker is still registered — and the session's status becomes `recording`
again without creating a new session. -/
theorem stopped_session_restart_counterexample :
    (start_recording true true ⟨SessionStatus.idle, false⟩).response = .ok ()
    ∧ (start_recording true true ⟨SessionStatus.idle, false⟩).state.status
        = SessionStatus.recording
    ∧ (stop_recording (start_recording true true ⟨SessionStatus.idle, false⟩).state).2
        = .ok ()
    ∧ (stop_recording (start_recording true true ⟨SessionStatus.idle, false⟩).state).1.status
        = SessionStatus.stopped
    ∧ (start_recording true true
        (stop_recording (start_recording true true
          ⟨SessionStatus.idle, false⟩).state).1).response = .ok ()
    ∧ (start_recording true true
        (stop_recording (start_recording true true
          ⟨SessionStatus.idle, false⟩).state).1).state.status
        = SessionStatus.recording := by
  decide

/-- C9 (amended): stop leaves the session `stopped` with its worker cleared,
but a subsequent start on that same session identifier is accepted whenever
the session row still exists, the source opens, and no worker is registered:
it commits `recording` again and registers a fresh worker — the code does not
require creating a new session. -/
theorem stopped_session_restart_allowed (s : RouteState)
    (hstop : s.status = SessionStatus.stopped) (hw : s.workerActive = false) :
    (start_recording true true s).response = .ok ()
    ∧ (start_recording true true s).state = ⟨SessionStatus.recording, true⟩
    ∧ (start_recording true true s).statusWrites = [SessionStatus.recording] := by
  simp [start_recording, hw]

theorem stopped_session_restart_allowed_witness :
    ((⟨SessionStatus.stopped, false⟩ : RouteState).status = SessionStatus.stopped
      ∧ (⟨SessionStatus.stopped, false⟩ : RouteState).workerActive = false)
    ∧ ((start_recording true true ⟨SessionStatus.stopped, false⟩).response = .ok ()
      ∧ (start_recording true true ⟨SessionStatus.stopped, false⟩).state
          = ⟨SessionStatus.recording, true⟩
      ∧ (start_recording true true ⟨SessionStatus.stopped, false⟩).statusWrites
          = [SessionStatus.recording]) :=
  ⟨⟨rfl, rfl⟩,
   stopped_session_restart_allowed ⟨SessionStatus.stopped, false⟩ rfl rfl⟩

end NoteGen
